import Mathlib

/-!
Shallow embedding of the kektracer path tracer (src/main.rs).

Floating-point (`f32`) values are modelled as real numbers; `sqrt` is
`Real.sqrt`.  The random sources (`rand::thread_rng`) are modelled by
passing the sampled values explicitly: `Material.scatter` receives the
random unit-ball point as an argument, `color` receives a stream of such
points (one per bounce), and the per-pixel sampling loop receives a
stream of jitter offsets and a stream-of-streams of scatter samples.
Bitmap bookkeeping (`get_mut`, `iter_mut`, the packed-pixel write) is
modelled over `ℕ`.
-/

/-- `fn clamped<T: PartialOrd>(x, min, max)` from main.rs, at type `ℝ`. -/
noncomputable def clamped (x mn mx : ℝ) : ℝ :=
  if x < mn then mn else if mx < x then mx else x

/-- `struct Vec3 { x, y, z : f32 }`. -/
@[ext] structure Vec3 where
  x : ℝ
  y : ℝ
  z : ℝ

namespace Vec3

/-- `Vec3::new`. -/
def new (x y z : ℝ) : Vec3 := ⟨x, y, z⟩

/-- `Vec3::zero()` (source writes `Vec3::new(0.00, 0.0, 0.0)`). -/
def zero : Vec3 := ⟨0, 0, 0⟩

/-- `Vec3::add`, componentwise. -/
def add (a b : Vec3) : Vec3 := ⟨a.x + b.x, a.y + b.y, a.z + b.z⟩

/-- `Vec3::subtract`, componentwise. -/
def subtract (a b : Vec3) : Vec3 := ⟨a.x - b.x, a.y - b.y, a.z - b.z⟩

/-- `Vec3::negate`. -/
def negate (a : Vec3) : Vec3 := ⟨-a.x, -a.y, -a.z⟩

/-- `Vec3::multiply`, componentwise. -/
def multiply (a b : Vec3) : Vec3 := ⟨a.x * b.x, a.y * b.y, a.z * b.z⟩

/-- `Vec3::multiply_scalar`. -/
def multiply_scalar (a : Vec3) (s : ℝ) : Vec3 := ⟨a.x * s, a.y * s, a.z * s⟩

/-- `Vec3::div_scalar`. -/
noncomputable def div_scalar (a : Vec3) (s : ℝ) : Vec3 := ⟨a.x / s, a.y / s, a.z / s⟩

/-- `Vec3::dot`. -/
def dot (a b : Vec3) : ℝ := a.x * b.x + a.y * b.y + a.z * b.z

/-- `Vec3::cross` (right-handed). -/
def cross (a b : Vec3) : Vec3 :=
  ⟨a.y * b.z - a.z * b.y, a.z * b.x - a.x * b.z, a.x * b.y - a.y * b.x⟩

/-- `Vec3::squared_length`. -/
def squared_length (a : Vec3) : ℝ := a.x * a.x + a.y * a.y + a.z * a.z

/-- `Vec3::length`. -/
noncomputable def length (a : Vec3) : ℝ := Real.sqrt (a.x * a.x + a.y * a.y + a.z * a.z)

/-- `Vec3::unit_vector`: `self.div_scalar(self.length())`. -/
noncomputable def unit_vector (a : Vec3) : Vec3 := a.div_scalar a.length

instance : Add Vec3 := ⟨Vec3.add⟩
instance : Sub Vec3 := ⟨Vec3.subtract⟩
instance : Neg Vec3 := ⟨Vec3.negate⟩
instance : Mul Vec3 := ⟨Vec3.multiply⟩

/-- `Vec3::lerp(from, to, v)`: `v` is clamped via `v.min(1.0).max(0.0)`. -/
noncomputable def lerp (a b : Vec3) (v : ℝ) : Vec3 :=
  let w := max (min v 1) 0
  a.multiply_scalar (1 - w) + b.multiply_scalar w

theorem add_def (a b : Vec3) : a + b = ⟨a.x + b.x, a.y + b.y, a.z + b.z⟩ := rfl
theorem sub_def (a b : Vec3) : a - b = ⟨a.x - b.x, a.y - b.y, a.z - b.z⟩ := rfl
theorem mul_def (a b : Vec3) : a * b = ⟨a.x * b.x, a.y * b.y, a.z * b.z⟩ := rfl

end Vec3

/-- `struct Ray { origin, direction }`. -/
structure Ray where
  origin : Vec3
  direction : Vec3

namespace Ray

/-- `Ray::point_at_parameter(t) = origin + direction * t`. -/
def point_at_parameter (r : Ray) (t : ℝ) : Vec3 :=
  r.origin + r.direction.multiply_scalar t

end Ray

/-- `struct Hit { t, position, normal }`. -/
@[ext] structure Hit where
  t : ℝ
  position : Vec3
  normal : Vec3

/-- `enum Material`. -/
inductive Material where
  | Diffuse (albedo : Vec3)
  | Metal (albedo : Vec3) (fuzz : ℝ)

/-- `struct MaterialScatter { attenuation, scattered_ray }`. -/
structure MaterialScatter where
  attenuation : Vec3
  scattered_ray : Ray

/-- `fn reflect(v, normal) = v - 2.0 * v.dot(normal) * normal` (local fn in
`Material::scatter`). -/
def reflect (v normal : Vec3) : Vec3 :=
  v - normal.multiply_scalar (2 * v.dot normal)

/-- `Material::scatter(ray, hit)`.  The call to
`Vec3::random_in_unit_sphere()` is modelled by the explicit argument
`rnd`: the point the rejection sampler returned. -/
noncomputable def Material.scatter (m : Material) (ray : Ray) (hit : Hit) (rnd : Vec3) :
    Option MaterialScatter :=
  match m with
  | .Diffuse albedo =>
      let target := hit.position + hit.normal + rnd
      some ⟨albedo, ⟨hit.position, target - hit.position⟩⟩
  | .Metal albedo fuzz =>
      let reflected := reflect ray.direction.unit_vector hit.normal
      let scattered_ray : Ray := ⟨hit.position, reflected + rnd.multiply_scalar (clamped fuzz 0 1)⟩
      if 0 < scattered_ray.direction.dot hit.normal then
        some ⟨albedo, scattered_ray⟩
      else
        none

/-- `struct Sphere { center, radius, material }`. -/
structure Sphere where
  center : Vec3
  radius : ℝ
  material : Material

/-- The `let a = ray.direction().dot(ray.direction())` binding of
`Sphere::hit_test`. -/
def sphereA (ray : Ray) : ℝ := ray.direction.dot ray.direction

/-- The `let b = oc.dot(ray.direction())` binding of `Sphere::hit_test`,
with `oc = ray.origin() - self.center`. -/
def sphereB (s : Sphere) (ray : Ray) : ℝ := (ray.origin - s.center).dot ray.direction

/-- The `let c = oc.dot(oc) - self.radius * self.radius` binding of
`Sphere::hit_test`. -/
def sphereC (s : Sphere) (ray : Ray) : ℝ :=
  (ray.origin - s.center).dot (ray.origin - s.center) - s.radius * s.radius

/-- The `let discriminant = b * b - a * c` binding of `Sphere::hit_test`. -/
def sphereDisc (s : Sphere) (ray : Ray) : ℝ :=
  sphereB s ray * sphereB s ray - sphereA ray * sphereC s ray

/-- The first candidate root `(-b - (b*b - a*c).sqrt()) / a` of
`Sphere::hit_test`. -/
noncomputable def sphereT0 (s : Sphere) (ray : Ray) : ℝ :=
  (-sphereB s ray - Real.sqrt (sphereB s ray * sphereB s ray - sphereA ray * sphereC s ray)) /
    sphereA ray

/-- The second candidate root `(-b + (b*b - a*c).sqrt()) / a` of
`Sphere::hit_test`. -/
noncomputable def sphereT1 (s : Sphere) (ray : Ray) : ℝ :=
  (-sphereB s ray + Real.sqrt (sphereB s ray * sphereB s ray - sphereA ray * sphereC s ray)) /
    sphereA ray

/-- The hit record `Sphere::hit_test` builds at parameter `temp`:
`Hit::new(temp, point, (point - self.center) / self.radius)` with
`point = ray.point_at_parameter(temp)`. -/
noncomputable def sphereHitAt (s : Sphere) (ray : Ray) (t : ℝ) : Hit :=
  ⟨t, ray.point_at_parameter t, (ray.point_at_parameter t - s.center).div_scalar s.radius⟩

/-- `Sphere::hit_test(ray, t_min, t_max)`. -/
noncomputable def Sphere.hit_test (s : Sphere) (ray : Ray) (t_min t_max : ℝ) : Option Hit :=
  if 0 < sphereDisc s ray then
    if sphereT0 s ray < t_max ∧ t_min < sphereT0 s ray then
      some (sphereHitAt s ray (sphereT0 s ray))
    else if sphereT1 s ray < t_max ∧ t_min < sphereT1 s ray then
      some (sphereHitAt s ray (sphereT1 s ray))
    else none
  else none

/-- `struct World { spheres : Vec<Sphere> }`. -/
structure World where
  spheres : List Sphere

/-- The `for_each` loop body of `World::hit_test`, threading the mutable
state `(closest_t, result)` through the sphere list in order. -/
noncomputable def hitLoop (ray : Ray) (t_min : ℝ) :
    List Sphere → ℝ → Option (Hit × Material) → Option (Hit × Material)
  | [], _, result => result
  | s :: rest, closest_t, result =>
      match s.hit_test ray t_min closest_t with
      | some hit => hitLoop ray t_min rest hit.t (some (hit, s.material))
      | none => hitLoop ray t_min rest closest_t result

/-- `World::hit_test(ray, t_min, t_max)`: `closest_t` starts at `t_max`,
`result` at `None`. -/
noncomputable def World.hit_test (w : World) (ray : Ray) (t_min t_max : ℝ) :
    Option (Hit × Material) :=
  hitLoop ray t_min w.spheres t_max none

/-- `fn color(ray, world, bounces)`.  `rnd` supplies the random unit-ball
point each `scatter` call draws, one per recursion level. -/
noncomputable def color (ray : Ray) (world : World) (bounces : ℕ) (rnd : ℕ → Vec3) : Vec3 :=
  match world.hit_test ray 0.001 1000 with
  | some (hit, material) =>
      match bounces with
      | 0 => Vec3.zero
      | b + 1 =>
          match material.scatter ray hit (rnd 0) with
          | some sc => sc.attenuation * color sc.scattered_ray world b (fun n => rnd (n + 1))
          | none => Vec3.zero
  | none =>
      Vec3.lerp ⟨1, 1, 1⟩ ⟨0.5, 0.7, 1.0⟩ ((ray.direction.unit_vector.y + 1) * 0.5)

/-- `struct Camera { origin, lower_left_corner, horizontal, vertical }`. -/
structure Camera where
  origin : Vec3
  lower_left_corner : Vec3
  horizontal : Vec3
  vertical : Vec3

/-- `Camera::ray(u, v) = Ray::new(origin, lower_left_corner + u * horizontal
+ v * vertical - origin)`. -/
noncomputable def Camera.ray (c : Camera) (u v : ℝ) : Ray :=
  ⟨c.origin, c.lower_left_corner + c.horizontal.multiply_scalar u +
      c.vertical.multiply_scalar v - c.origin⟩

/-- `fn apply_gamma_2_correction(c) = Vec3::new(c.x.sqrt(), c.y.sqrt(),
c.z.sqrt())` (local fn in `render`). -/
noncomputable def apply_gamma_2_correction (c : Vec3) : Vec3 :=
  ⟨Real.sqrt c.x, Real.sqrt c.y, Real.sqrt c.z⟩

/-- The red channel the per-pixel loop computes:
`(c.x * std::u8::MAX as f32) as u32` after averaging and gamma
correction.  The `as u32` truncation of a nonnegative float is `Nat.floor`. -/
noncomputable def pixelR (c : Vec3) (aa_samples : ℕ) : ℕ :=
  ⌊(apply_gamma_2_correction (c.div_scalar (aa_samples : ℝ))).x * 255⌋₊

/-- Green channel, as `pixelR`. -/
noncomputable def pixelG (c : Vec3) (aa_samples : ℕ) : ℕ :=
  ⌊(apply_gamma_2_correction (c.div_scalar (aa_samples : ℝ))).y * 255⌋₊

/-- Blue channel, as `pixelR`. -/
noncomputable def pixelB (c : Vec3) (aa_samples : ℕ) : ℕ :=
  ⌊(apply_gamma_2_correction (c.div_scalar (aa_samples : ℝ))).z * 255⌋₊

/-- The tail of the per-pixel loop body of `render` (lines
`c = c / aa_samples; c = apply_gamma_2_correction(c); ...;
*p = (*p & 0xff000000) | r << 16 | g << 8 | b`): given the accumulated
sample sum `c`, the sample count, and the previous pixel value `old`,
the new packed pixel value. -/
noncomputable def writePixel (c : Vec3) (aa_samples : ℕ) (old : ℕ) : ℕ :=
  (old &&& 0xff000000) ||| (pixelR c aa_samples <<< 16) |||
    (pixelG c aa_samples <<< 8) ||| pixelB c aa_samples

/-- The sampling loop of the per-pixel body of `render`: `aa_samples`
iterations, each jittering `(x, y)` by `jitter n`, mapping through the
camera, and adding `color(..., 50)`.  `rnd n` is the scatter-sample
stream the `n`-th `color` call consumes. -/
noncomputable def accumulate (world : World) (camera : Camera) (width height x y : ℕ)
    (jitter : ℕ → ℝ × ℝ) (rnd : ℕ → ℕ → Vec3) : ℕ → Vec3
  | 0 => Vec3.zero
  | n + 1 =>
      accumulate world camera width height x y jitter rnd n +
        color (camera.ray (((x : ℝ) + (jitter n).1) / (width : ℝ))
            (((y : ℝ) + (jitter n).2) / (height : ℝ))) world 50 (rnd n)

/-- The whole per-pixel body of `render`: accumulate, average, gamma
correct, quantize, pack (preserving the old top byte). -/
noncomputable def renderPixel (world : World) (camera : Camera) (width height x y : ℕ)
    (jitter : ℕ → ℝ × ℝ) (rnd : ℕ → ℕ → Vec3) (aa_samples old : ℕ) : ℕ :=
  writePixel (accumulate world camera width height x y jitter rnd aa_samples) aa_samples old

/-- `Bitmap::get_mut(x, y)`: the buffer index handed out, or `None` out of
range.  (The buffer slot itself is modelled by its index
`(height - y - 1) * width + x`.) -/
def Bitmap.get_mut (width height x y : ℕ) : Option ℕ :=
  if width ≤ x ∨ height ≤ y then none
  else some ((height - y - 1) * width + x)

/-- `Bitmap::iter_mut()`: for buffer index `i` it yields
`(x, height - y - 1, v)` with `y = i / width`, `x = i - y * width`, and
`v` the slot at index `i` (modelled by the index itself). -/
def Bitmap.iterMutTriples (width height : ℕ) : List (ℕ × ℕ × ℕ) :=
  (List.range (width * height)).map
    (fun i => (i - i / width * width, height - i / width - 1, i))

/-- Spec-side description of the scene query of section 4.3 of the spec:
every sphere tested against the full interval, nearest hit kept, first
sphere winning exact ties.  Used only to prove the claim about
`World.hit_test`; the code-side scan is `hitLoop`. -/
noncomputable def specNearestHit (ray : Ray) (t_min t_max : ℝ) :
    List Sphere → Option (Hit × Material)
  | [] => none
  | s :: rest =>
      match s.hit_test ray t_min t_max, specNearestHit ray t_min t_max rest with
      | none, r => r
      | some h, none => some (h, s.material)
      | some h, some (h', m') => if h.t ≤ h'.t then some (h, s.material) else some (h', m')

theorem hitLoop_nil (ray : Ray) (t_min closest : ℝ) (res : Option (Hit × Material)) :
    hitLoop ray t_min [] closest res = res := rfl

theorem empty_hit_test (ray : Ray) (t_min t_max : ℝ) :
    World.hit_test ⟨[]⟩ ray t_min t_max = none := rfl

/-- Claim C5: in a world containing no spheres, `color` returns exactly the
background gradient `lerp((1,1,1), (0.5,0.7,1.0), 0.5*(unit_direction.y+1))`
for every ray, every bounce budget and every random stream. -/
theorem c5_empty_world_background (ray : Ray) (bounces : ℕ) (rnd : ℕ → Vec3) :
    color ray ⟨[]⟩ bounces rnd =
      Vec3.lerp ⟨1, 1, 1⟩ ⟨0.5, 0.7, 1.0⟩ (0.5 * (ray.direction.unit_vector.y + 1)) := by
  rw [color]
  rw [empty_hit_test]
  ring_nf

/-- Claim C1 is false as stated: with `bounces_remaining = 0` and a ray that
hits nothing (empty world), `color` returns the background gradient
`(3/4, 17/20, 1)`, not black — the zero-bounce check sits inside the hit
branch of `color`. -/
theorem c1_zero_bounce_counterexample :
    color ⟨⟨0, 0, 2⟩, ⟨0, 0, -1⟩⟩ ⟨[]⟩ 0 (fun _ => Vec3.zero) = ⟨3/4, 17/20, 1⟩ ∧
      (⟨3/4, 17/20, 1⟩ : Vec3) ≠ Vec3.zero := by
  constructor
  · rw [color, empty_hit_test]
    show Vec3.lerp _ _ _ = _
    have h1 : (Vec3.mk 0 0 (-1)).unit_vector.y = 0 := by
      simp [Vec3.unit_vector, Vec3.length, Vec3.div_scalar]
    rw [Vec3.lerp, h1]
    norm_num [Vec3.multiply_scalar, Vec3.add_def]
  · simp [Vec3.zero, Vec3.ext_iff]

/-- Claim C1 (amended): with `bounces_remaining = 0`, `color` returns black
exactly when the nearest-hit query over `(0.001, 1000)` reports a hit; when
the ray hits nothing it still returns the background gradient. -/
theorem c1_zero_bounce_amended (ray : Ray) (w : World) (rnd : ℕ → Vec3) :
    color ray w 0 rnd =
      match w.hit_test ray 0.001 1000 with
      | some _ => Vec3.zero
      | none => Vec3.lerp ⟨1, 1, 1⟩ ⟨0.5, 0.7, 1.0⟩ ((ray.direction.unit_vector.y + 1) * 0.5) := by
  rw [color]
  rcases h : w.hit_test ray 0.001 1000 with _ | ⟨hit, material⟩ <;> rfl

/-- Claim C4: `scatter` on a Diffuse material always returns some, with
attenuation = albedo and a scattered ray from `hit.position` toward
`hit.position + hit.normal +` the random unit-ball point; `scatter` on a
Metal material returns none exactly when the fuzz-perturbed reflected
direction's dot product with the hit normal is `≤ 0`, and otherwise returns
some with attenuation = albedo and the perturbed reflected ray. -/
theorem c4_scatter_cases (ray : Ray) (hit : Hit) (rnd albedo : Vec3) (fuzz : ℝ) :
    ((Material.Diffuse albedo).scatter ray hit rnd =
        some ⟨albedo, ⟨hit.position, hit.position + hit.normal + rnd - hit.position⟩⟩) ∧
      ((Material.Metal albedo fuzz).scatter ray hit rnd = none ↔
        (reflect ray.direction.unit_vector hit.normal +
            rnd.multiply_scalar (clamped fuzz 0 1)).dot hit.normal ≤ 0) ∧
      (0 < (reflect ray.direction.unit_vector hit.normal +
            rnd.multiply_scalar (clamped fuzz 0 1)).dot hit.normal →
        (Material.Metal albedo fuzz).scatter ray hit rnd =
          some ⟨albedo, ⟨hit.position, reflect ray.direction.unit_vector hit.normal +
            rnd.multiply_scalar (clamped fuzz 0 1)⟩⟩) := by
  refine ⟨rfl, ?_, ?_⟩
  · rw [Material.scatter]
    split_ifs with h
    · exact ⟨fun hc => hc.elim,
        fun hle => absurd h (not_lt.mpr hle)⟩
    · simp only [not_lt] at h
      simp [h]
  · intro h
    rw [Material.scatter]
    split_ifs with h2
    · rfl
    · exact absurd h h2

theorem sub_div_mul_eq_mod (i w : ℕ) : i - i / w * w = i % w := by
  apply Nat.sub_eq_of_eq_add
  conv_lhs => rw [← Nat.div_add_mod i w]
  ring

/-- Claim C9: the pixel accessor returns none exactly when `x ≥ width` or
`y ≥ height`, and otherwise returns an in-range buffer slot. -/
theorem c9_get_mut_bounds (width height x y : ℕ) :
    (Bitmap.get_mut width height x y = none ↔ width ≤ x ∨ height ≤ y) ∧
      (x < width → y < height →
        ∃ i, Bitmap.get_mut width height x y = some i ∧ i < width * height) := by
  constructor
  · unfold Bitmap.get_mut
    split_ifs with h
    · simp [h]
    · simp [h]
  · intro hx hy
    refine ⟨(height - y - 1) * width + x, ?_, ?_⟩
    · unfold Bitmap.get_mut
      rw [if_neg]
      push_neg
      exact ⟨hx, hy⟩
    · have h1 : (height - y - 1) + 1 = height - y := by omega
      calc (height - y - 1) * width + x
          < (height - y - 1) * width + width := by omega
        _ = ((height - y - 1) + 1) * width := by ring
        _ = (height - y) * width := by rw [h1]
        _ ≤ height * width := Nat.mul_le_mul_right _ (by omega)
        _ = width * height := Nat.mul_comm _ _

theorem count_eq_one_of_nodup_mem {α : Type} [BEq α] [LawfulBEq α] {l : List α} {a : α}
    (hn : l.Nodup) (hm : a ∈ l) : l.count a = 1 := by
  induction l with
  | nil => cases hm
  | cons b t ih =>
    rw [List.count_cons]
    rw [List.nodup_cons] at hn
    rcases List.mem_cons.mp hm with rfl | hmt
    · rw [List.count_eq_zero.mpr hn.1]
      simp
    · have hne : a ≠ b := fun h => hn.1 (h ▸ hmt)
      rw [ih hn.2 hmt]
      simp [Ne.symm hne]

/-- Claim C8: one render-call traversal yields exactly `width*height` items;
the buffer indices it yields are exactly `0 .. width*height - 1`, each once;
every yielded coordinate is in range; and each pair `(x, y)` with
`x < width`, `y < height` appears exactly once. -/
theorem c8_iter_mut_coverage (width height : ℕ) :
    ((Bitmap.iterMutTriples width height).length = width * height) ∧
      ((Bitmap.iterMutTriples width height).map (fun t => t.2.2) = List.range (width * height)) ∧
      (∀ t ∈ Bitmap.iterMutTriples width height,
        t.1 < width ∧ t.2.1 < height ∧ t.2.2 < width * height) ∧
      (∀ x y, x < width → y < height →
        ((Bitmap.iterMutTriples width height).map (fun t => (t.1, t.2.1))).count (x, y) = 1) := by
  refine ⟨?_, ?_, ?_, ?_⟩
  · simp [Bitmap.iterMutTriples]
  · unfold Bitmap.iterMutTriples
    rw [List.map_map]
    have hid : ((fun t : ℕ × ℕ × ℕ => t.2.2) ∘
        fun i : ℕ => (i - i / width * width, height - i / width - 1, i)) = id := by
      funext i; rfl
    rw [hid, List.map_id]
  · intro t ht
    simp only [Bitmap.iterMutTriples, List.mem_map, List.mem_range] at ht
    obtain ⟨i, hi, rfl⟩ := ht
    have hw : 0 < width := by
      rcases Nat.eq_zero_or_pos width with h | h
      · subst h; simp at hi
      · exact h
    have hq : i / width < height := Nat.div_lt_of_lt_mul hi
    refine ⟨?_, ?_, hi⟩
    · show i - i / width * width < width
      rw [sub_div_mul_eq_mod]
      exact Nat.mod_lt _ hw
    · show height - i / width - 1 < height
      revert hq
      generalize i / width = q
      intro hq
      omega
  · intro x y hx hy
    have hw : 0 < width := by omega
    unfold Bitmap.iterMutTriples
    rw [List.map_map]
    have hnodup : ((List.range (width * height)).map
        ((fun t : ℕ × ℕ × ℕ => (t.1, t.2.1)) ∘
          fun i : ℕ => (i - i / width * width, height - i / width - 1, i))).Nodup := by
      apply List.Nodup.map_on _ (List.nodup_range _)
      intro i hi j hj heq
      rw [List.mem_range] at hi hj
      simp only [Function.comp, Prod.mk.injEq] at heq
      obtain ⟨h1, h2⟩ := heq
      rw [sub_div_mul_eq_mod, sub_div_mul_eq_mod] at h1
      have hqi : i / width < height := Nat.div_lt_of_lt_mul hi
      have hqj : j / width < height := Nat.div_lt_of_lt_mul hj
      have hdiv : i / width = j / width := by omega
      calc i = width * (i / width) + i % width := (Nat.div_add_mod i width).symm
        _ = width * (j / width) + j % width := by rw [hdiv, h1]
        _ = j := Nat.div_add_mod j width
    have hmem : (x, y) ∈ (List.range (width * height)).map
        ((fun t : ℕ × ℕ × ℕ => (t.1, t.2.1)) ∘
          fun i : ℕ => (i - i / width * width, height - i / width - 1, i)) := by
      rw [List.mem_map]
      refine ⟨(height - y - 1) * width + x, ?_, ?_⟩
      · rw [List.mem_range]
        have h1 : (height - y - 1) + 1 = height - y := by omega
        calc (height - y - 1) * width + x
            < (height - y - 1) * width + width := by omega
          _ = ((height - y - 1) + 1) * width := by ring
          _ = (height - y) * width := by rw [h1]
          _ ≤ height * width := Nat.mul_le_mul_right _ (by omega)
          _ = width * height := Nat.mul_comm _ _
      · have hdiv : ((height - y - 1) * width + x) / width = height - y - 1 := by
          rw [Nat.mul_comm (height - y - 1) width, Nat.mul_add_div hw,
            Nat.div_eq_of_lt hx, Nat.add_zero]
        have hmod : ((height - y - 1) * width + x) % width = x := by
          rw [Nat.mul_comm (height - y - 1) width, Nat.mul_add_mod, Nat.mod_eq_of_lt hx]
        simp only [Function.comp, Prod.mk.injEq]
        constructor
        · rw [sub_div_mul_eq_mod, hmod]
        · rw [hdiv]; omega
    exact count_eq_one_of_nodup_mem hnodup hmem

theorem sphereA_nonneg (ray : Ray) : 0 ≤ sphereA ray := by
  unfold sphereA Vec3.dot
  nlinarith [sq_nonneg ray.direction.x, sq_nonneg ray.direction.y, sq_nonneg ray.direction.z]

theorem sphereT0_le_sphereT1 (s : Sphere) (ray : Ray) : sphereT0 s ray ≤ sphereT1 s ray := by
  unfold sphereT0 sphereT1
  rcases eq_or_lt_of_le (sphereA_nonneg ray) with h | h
  · rw [← h, div_zero, div_zero]
  · apply (div_le_div_iff_of_pos_right h).mpr
    have := Real.sqrt_nonneg (sphereB s ray * sphereB s ray - sphereA ray * sphereC s ray)
    linarith

theorem sphere_hit_some (s : Sphere) (ray : Ray) (t_min t_max : ℝ) (h : Hit)
    (he : s.hit_test ray t_min t_max = some h) :
    t_min < h.t ∧ h.t < t_max ∧ (h.t = sphereT0 s ray ∨ h.t = sphereT1 s ray) ∧
      h = sphereHitAt s ray h.t := by
  unfold Sphere.hit_test at he
  split_ifs at he with h1 h2 h3
  · injection he with he
    subst he
    exact ⟨h2.2, h2.1, Or.inl rfl, rfl⟩
  · injection he with he
    subst he
    exact ⟨h3.2, h3.1, Or.inr rfl, rfl⟩

theorem sphere_hit_shrink (s : Sphere) (ray : Ray) (t_min t_max t_max' : ℝ) (h : Hit)
    (hle : t_max' ≤ t_max) :
    s.hit_test ray t_min t_max' = some h ↔
      s.hit_test ray t_min t_max = some h ∧ h.t < t_max' := by
  by_cases hd : 0 < sphereDisc s ray
  · have ht01 := sphereT0_le_sphereT1 s ray
    unfold Sphere.hit_test
    rw [if_pos hd, if_pos hd]
    by_cases h0' : sphereT0 s ray < t_max' ∧ t_min < sphereT0 s ray
    · rw [if_pos h0', if_pos ⟨lt_of_lt_of_le h0'.1 hle, h0'.2⟩]
      constructor
      · intro he
        have hh := Option.some_inj.mp he
        subst hh
        exact ⟨rfl, h0'.1⟩
      · rintro ⟨he, _⟩
        exact he
    · rw [if_neg h0']
      by_cases h1' : sphereT1 s ray < t_max' ∧ t_min < sphereT1 s ray
      · have hP0 : ¬(sphereT0 s ray < t_max ∧ t_min < sphereT0 s ray) := by
          rintro ⟨ha, hb⟩
          rcases not_and_or.mp h0' with hc | hc
          · push_neg at hc
            exact absurd h1'.1 (not_lt.mpr (le_trans hc ht01))
          · exact hc hb
        rw [if_pos h1', if_neg hP0, if_pos ⟨lt_of_lt_of_le h1'.1 hle, h1'.2⟩]
        constructor
        · intro he
          have hh := Option.some_inj.mp he
          subst hh
          exact ⟨rfl, h1'.1⟩
        · rintro ⟨he, _⟩
          exact he
      · rw [if_neg h1']
        constructor
        · intro he
          exact absurd he (by simp)
        · rintro ⟨he, hlt⟩
          exfalso
          by_cases hP0 : sphereT0 s ray < t_max ∧ t_min < sphereT0 s ray
          · rw [if_pos hP0] at he
            have hh := Option.some_inj.mp he
            subst hh
            exact h0' ⟨hlt, hP0.2⟩
          · rw [if_neg hP0] at he
            by_cases hP1 : sphereT1 s ray < t_max ∧ t_min < sphereT1 s ray
            · rw [if_pos hP1] at he
              have hh := Option.some_inj.mp he
              subst hh
              exact h1' ⟨hlt, hP1.2⟩
            · rw [if_neg hP1] at he
              exact absurd he (by simp)
  · unfold Sphere.hit_test
    rw [if_neg hd, if_neg hd]
    simp

theorem sphere_hit_none_of_shrink (s : Sphere) (ray : Ray) (t_min t_max t_max' : ℝ)
    (hle : t_max' ≤ t_max) (hn : s.hit_test ray t_min t_max = none) :
    s.hit_test ray t_min t_max' = none := by
  cases hs2 : s.hit_test ray t_min t_max' with
  | none => rfl
  | some h2 =>
    have := ((sphere_hit_shrink s ray t_min t_max t_max' h2 hle).mp hs2).1
    rw [hn] at this
    exact absurd this (by simp)

theorem specNearestHit_shrink (ray : Ray) (t_min t_max t_max' : ℝ) (hle : t_max' ≤ t_max)
    (l : List Sphere) :
    specNearestHit ray t_min t_max' l =
      match specNearestHit ray t_min t_max l with
      | none => none
      | some (h, m) => if h.t < t_max' then some (h, m) else none := by
  induction l with
  | nil => rfl
  | cons s rest ih =>
    cases hs : s.hit_test ray t_min t_max with
    | none =>
      have hs' : s.hit_test ray t_min t_max' = none :=
        sphere_hit_none_of_shrink s ray t_min t_max t_max' hle hs
      simp only [specNearestHit, hs, hs']
      exact ih
    | some h =>
      by_cases hlt : h.t < t_max'
      · have hs' : s.hit_test ray t_min t_max' = some h :=
          (sphere_hit_shrink s ray t_min t_max t_max' h hle).mpr ⟨hs, hlt⟩
        simp only [specNearestHit, hs, hs', ih]
        cases hr : specNearestHit ray t_min t_max rest with
        | none => simp [hlt]
        | some p =>
          obtain ⟨h', m'⟩ := p
          by_cases hlt' : h'.t < t_max'
          · simp only [if_pos hlt']
            by_cases hcmp : h.t ≤ h'.t
            · simp [hcmp, hlt]
            · simp [hcmp, hlt']
          · simp only [if_neg hlt']
            have hcmp : h.t ≤ h'.t := le_trans (le_of_lt hlt) (not_lt.mp hlt')
            simp [hcmp, hlt]
      · have hs' : s.hit_test ray t_min t_max' = none := by
          cases hs2 : s.hit_test ray t_min t_max' with
          | none => rfl
          | some h2 =>
            obtain ⟨he, hlt2⟩ := (sphere_hit_shrink s ray t_min t_max t_max' h2 hle).mp hs2
            rw [hs] at he
            have := Option.some_inj.mp he
            subst this
            exact absurd hlt2 hlt
        simp only [specNearestHit, hs, hs', ih]
        cases hr : specNearestHit ray t_min t_max rest with
        | none => simp [hlt]
        | some p =>
          obtain ⟨h', m'⟩ := p
          by_cases hcmp : h.t ≤ h'.t
          · have hlt' : ¬ h'.t < t_max' := fun hc => hlt (lt_of_le_of_lt hcmp hc)
            simp [hcmp, hlt, hlt']
          · simp [hcmp]

theorem hitLoop_acc (ray : Ray) (t_min : ℝ) (l : List Sphere) :
    ∀ (h : Hit) (m : Material),
      hitLoop ray t_min l h.t (some (h, m)) =
        match specNearestHit ray t_min h.t l with
        | none => some (h, m)
        | some p => some p := by
  induction l with
  | nil => intro h m; rfl
  | cons s rest ih =>
    intro h m
    cases hs : s.hit_test ray t_min h.t with
    | none =>
      simp only [hitLoop, specNearestHit, hs]
      exact ih h m
    | some h2 =>
      have hb := sphere_hit_some s ray t_min h.t h2 hs
      have hlt : h2.t < h.t := hb.2.1
      simp only [hitLoop, specNearestHit, hs]
      rw [ih h2 s.material,
        specNearestHit_shrink ray t_min h.t h2.t (le_of_lt hlt) rest]
      cases hr : specNearestHit ray t_min h.t rest with
      | none => rfl
      | some p =>
        obtain ⟨h', m'⟩ := p
        by_cases hlt' : h'.t < h2.t
        · have hcmp : ¬ h2.t ≤ h'.t := not_le.mpr hlt'
          simp [hlt', hcmp]
        · have hcmp : h2.t ≤ h'.t := not_lt.mp hlt'
          simp [hlt', hcmp]

theorem hitLoop_none_start (ray : Ray) (t_min t_max : ℝ) (l : List Sphere) :
    hitLoop ray t_min l t_max none = specNearestHit ray t_min t_max l := by
  induction l with
  | nil => rfl
  | cons s rest ih =>
    cases hs : s.hit_test ray t_min t_max with
    | none =>
      simp only [hitLoop, specNearestHit, hs]
      exact ih
    | some h =>
      have hb := sphere_hit_some s ray t_min t_max h hs
      have hlt : h.t < t_max := hb.2.1
      simp only [hitLoop, specNearestHit, hs]
      rw [hitLoop_acc ray t_min rest h s.material,
        specNearestHit_shrink ray t_min t_max h.t (le_of_lt hlt) rest]
      cases hr : specNearestHit ray t_min t_max rest with
      | none => rfl
      | some p =>
        obtain ⟨h', m'⟩ := p
        by_cases hlt' : h'.t < h.t
        · have hcmp : ¬ h.t ≤ h'.t := not_le.mpr hlt'
          simp [hlt', hcmp]
        · have hcmp : h.t ≤ h'.t := not_lt.mp hlt'
          simp [hlt', hcmp]

theorem World.hit_test_eq_spec (w : World) (ray : Ray) (t_min t_max : ℝ) :
    w.hit_test ray t_min t_max = specNearestHit ray t_min t_max w.spheres :=
  hitLoop_none_start ray t_min t_max w.spheres

theorem spec_none_iff (ray : Ray) (t_min t_max : ℝ) (l : List Sphere) :
    specNearestHit ray t_min t_max l = none ↔
      ∀ s ∈ l, s.hit_test ray t_min t_max = none := by
  induction l with
  | nil => simp [specNearestHit]
  | cons s rest ih =>
    cases hs : s.hit_test ray t_min t_max with
    | none =>
      simp only [specNearestHit, hs]
      rw [ih]
      constructor
      · intro hall s' hmem
        rcases List.mem_cons.mp hmem with rfl | hmem'
        · exact hs
        · exact hall s' hmem'
      · intro hall s' hmem
        exact hall s' (List.mem_cons_of_mem s hmem)
    | some h =>
      simp only [specNearestHit, hs]
      constructor
      · intro he
        exfalso
        cases hr : specNearestHit ray t_min t_max rest with
        | none => rw [hr] at he; exact absurd he (by simp)
        | some p =>
          obtain ⟨h', m'⟩ := p
          rw [hr] at he
          change (if h.t ≤ h'.t then some (h, s.material) else some (h', m')) = none at he
          split_ifs at he
      · intro hall
        have := hall s (List.mem_cons_self s rest)
        rw [hs] at this
        exact absurd this (by simp)

theorem spec_min (ray : Ray) (t_min t_max : ℝ) (l : List Sphere) :
    ∀ (h : Hit) (m : Material), specNearestHit ray t_min t_max l = some (h, m) →
      ∀ s' ∈ l, ∀ h'', s'.hit_test ray t_min t_max = some h'' → h.t ≤ h''.t := by
  induction l with
  | nil => intro h m he; exact absurd he (by simp [specNearestHit])
  | cons s rest ih =>
    intro h m he s' hmem h'' hhit
    cases hs : s.hit_test ray t_min t_max with
    | none =>
      simp only [specNearestHit, hs] at he
      rcases List.mem_cons.mp hmem with rfl | hmem'
      · rw [hs] at hhit; exact absurd hhit (by simp)
      · exact ih h m he s' hmem' h'' hhit
    | some h2 =>
      cases hr : specNearestHit ray t_min t_max rest with
      | none =>
        simp only [specNearestHit, hs, hr] at he
        obtain ⟨rfl, rfl⟩ : h2 = h ∧ s.material = m := by
          have := Option.some_inj.mp he
          exact ⟨congrArg Prod.fst this, congrArg Prod.snd this⟩
        rcases List.mem_cons.mp hmem with rfl | hmem'
        · rw [hs] at hhit
          rw [Option.some_inj.mp hhit]
        · have := (spec_none_iff ray t_min t_max rest).mp hr s' hmem'
          rw [this] at hhit
          exact absurd hhit (by simp)
      | some p =>
        obtain ⟨h', m'⟩ := p
        simp only [specNearestHit, hs, hr] at he
        change (if h2.t ≤ h'.t then some (h2, s.material) else some (h', m')) = some (h, m) at he
        by_cases hcmp : h2.t ≤ h'.t
        · rw [if_pos hcmp] at he
          obtain ⟨rfl, rfl⟩ : h2 = h ∧ s.material = m := by
            have := Option.some_inj.mp he
            exact ⟨congrArg Prod.fst this, congrArg Prod.snd this⟩
          rcases List.mem_cons.mp hmem with rfl | hmem'
          · rw [hs] at hhit
            rw [Option.some_inj.mp hhit]
          · exact le_trans hcmp (ih h' m' hr s' hmem' h'' hhit)
        · rw [if_neg hcmp] at he
          obtain ⟨rfl, rfl⟩ : h' = h ∧ m' = m := by
            have := Option.some_inj.mp he
            exact ⟨congrArg Prod.fst this, congrArg Prod.snd this⟩
          rcases List.mem_cons.mp hmem with rfl | hmem'
          · rw [hs] at hhit
            rw [← Option.some_inj.mp hhit]
            exact le_of_lt (not_le.mp hcmp)
          · exact ih h' m' hr s' hmem' h'' hhit

theorem spec_some (ray : Ray) (t_min t_max : ℝ) (l : List Sphere) :
    ∀ (h : Hit) (m : Material), specNearestHit ray t_min t_max l = some (h, m) →
      ∃ l₁ s l₂, l = l₁ ++ s :: l₂ ∧ s.hit_test ray t_min t_max = some h ∧ m = s.material ∧
        (∀ s' ∈ l₁, ∀ h', s'.hit_test ray t_min t_max = some h' → h.t < h'.t) ∧
        (∀ s' ∈ l₂, ∀ h', s'.hit_test ray t_min t_max = some h' → h.t ≤ h'.t) := by
  induction l with
  | nil => intro h m he; exact absurd he (by simp [specNearestHit])
  | cons s rest ih =>
    intro h m he
    cases hs : s.hit_test ray t_min t_max with
    | none =>
      simp only [specNearestHit, hs] at he
      obtain ⟨l₁, sw, l₂, rfl, hw1, hw2, hw3, hw4⟩ := ih h m he
      refine ⟨s :: l₁, sw, l₂, rfl, hw1, hw2, ?_, hw4⟩
      intro s' hmem h' hhit
      rcases List.mem_cons.mp hmem with rfl | hmem'
      · rw [hs] at hhit; exact absurd hhit (by simp)
      · exact hw3 s' hmem' h' hhit
    | some h2 =>
      cases hr : specNearestHit ray t_min t_max rest with
      | none =>
        simp only [specNearestHit, hs, hr] at he
        obtain ⟨rfl, rfl⟩ : h2 = h ∧ s.material = m := by
          have := Option.some_inj.mp he
          exact ⟨congrArg Prod.fst this, congrArg Prod.snd this⟩
        refine ⟨[], s, rest, rfl, hs, rfl, by simp, ?_⟩
        intro s' hmem' h' hhit
        have := (spec_none_iff ray t_min t_max rest).mp hr s' hmem'
        rw [this] at hhit
        exact absurd hhit (by simp)
      | some p =>
        obtain ⟨h', m'⟩ := p
        simp only [specNearestHit, hs, hr] at he
        change (if h2.t ≤ h'.t then some (h2, s.material) else some (h', m')) = some (h, m) at he
        by_cases hcmp : h2.t ≤ h'.t
        · rw [if_pos hcmp] at he
          obtain ⟨rfl, rfl⟩ : h2 = h ∧ s.material = m := by
            have := Option.some_inj.mp he
            exact ⟨congrArg Prod.fst this, congrArg Prod.snd this⟩
          refine ⟨[], s, rest, rfl, hs, rfl, by simp, ?_⟩
          intro s' hmem' h'' hhit
          exact le_trans hcmp (spec_min ray t_min t_max rest h' m' hr s' hmem' h'' hhit)
        · rw [if_neg hcmp] at he
          obtain ⟨rfl, rfl⟩ : h' = h ∧ m' = m := by
            have := Option.some_inj.mp he
            exact ⟨congrArg Prod.fst this, congrArg Prod.snd this⟩
          obtain ⟨l₁, sw, l₂, hrest, hw1, hw2, hw3, hw4⟩ := ih h' m' hr
          refine ⟨s :: l₁, sw, l₂, by rw [hrest]; rfl, hw1, hw2, ?_, hw4⟩
          intro s' hmem h'' hhit
          rcases List.mem_cons.mp hmem with rfl | hmem'
          · rw [hs] at hhit
            rw [← Option.some_inj.mp hhit]
            exact not_le.mp hcmp
          · exact hw3 s' hmem' h'' hhit

/-- Claim C3: the scene query returns nothing iff no primitive intersects
within range; and when it returns a hit and a material, the hit comes from a
sphere whose own test over the full interval accepts exactly that hit, the
material is that sphere's, the hit's `t` is minimal among every sphere's
accepted hit, and every sphere earlier in scan order has strictly larger
`t` — on an exact tie the first primitive in scan order wins. -/
theorem c3_world_nearest_hit (w : World) (ray : Ray) (t_min t_max : ℝ) :
    (w.hit_test ray t_min t_max = none ↔
      ∀ s ∈ w.spheres, s.hit_test ray t_min t_max = none) ∧
    (∀ h m, w.hit_test ray t_min t_max = some (h, m) →
      ∃ l₁ s l₂, w.spheres = l₁ ++ s :: l₂ ∧ s.hit_test ray t_min t_max = some h ∧
        m = s.material ∧
        (∀ s' ∈ l₁, ∀ h', s'.hit_test ray t_min t_max = some h' → h.t < h'.t) ∧
        (∀ s' ∈ l₂, ∀ h', s'.hit_test ray t_min t_max = some h' → h.t ≤ h'.t)) := by
  constructor
  · rw [World.hit_test_eq_spec]
    exact spec_none_iff ray t_min t_max w.spheres
  · intro h m he
    rw [World.hit_test_eq_spec] at he
    exact spec_some ray t_min t_max w.spheres h m he

/-- Claim C10: the path integrator queries the nearest hit on the fixed
interval `(0.001, 1000)`: for any world whose spheres' candidate roots along
the ray all lie at `t ≤ 0.001` or `t ≥ 1000` (whenever the discriminant is
positive), `color` returns the background gradient for any positive bounce
budget, so geometry beyond `t = 1000` never contributes. -/
theorem c10_far_clip_background (ray : Ray) (w : World) (bounces : ℕ) (rnd : ℕ → Vec3)
    (hb : 0 < bounces)
    (hfar : ∀ s ∈ w.spheres, 0 < sphereDisc s ray →
      (sphereT0 s ray ≤ 0.001 ∨ 1000 ≤ sphereT0 s ray) ∧
      (sphereT1 s ray ≤ 0.001 ∨ 1000 ≤ sphereT1 s ray)) :
    color ray w bounces rnd =
      Vec3.lerp ⟨1, 1, 1⟩ ⟨0.5, 0.7, 1.0⟩ ((ray.direction.unit_vector.y + 1) * 0.5) := by
  have hnone : w.hit_test ray 0.001 1000 = none := by
    rw [World.hit_test_eq_spec, spec_none_iff]
    intro s hmem
    unfold Sphere.hit_test
    by_cases hd : 0 < sphereDisc s ray
    · obtain ⟨h0, h1⟩ := hfar s hmem hd
      rw [if_pos hd, if_neg, if_neg]
      · rintro ⟨ha, hb'⟩
        rcases h1 with hc | hc
        · linarith
        · linarith
      · rintro ⟨ha, hb'⟩
        rcases h0 with hc | hc
        · linarith
        · linarith
    · rw [if_neg hd]
  rw [color, hnone]

/-- Claim C2 (amended): with `a = dot(d,d)`, `b = dot(o-c,d)`,
`c = dot(o-c,o-c) - r^2`: when the discriminant `b*b - a*c` is not strictly
positive (no real root, or a repeated tangent root) the test reports no hit;
when it is strictly positive it evaluates `t0 = (-b - sqrt(disc))/a` first,
accepts it iff `t_min < t0 < t_max`, otherwise evaluates
`t1 = (-b + sqrt(disc))/a` under the same open-interval test, otherwise
reports no hit.  Moreover `t0 ≤ t1`, both roots solve
`a*t^2 + 2*b*t + c = 0` whenever `a ≠ 0` and the discriminant is
nonnegative, and every returned hit has normal
`(hit_position - center) / radius` with `hit_position` on the ray. -/
theorem c2_sphere_hit_amended (s : Sphere) (ray : Ray) (t_min t_max : ℝ) :
    (sphereDisc s ray ≤ 0 → s.hit_test ray t_min t_max = none) ∧
    (0 < sphereDisc s ray → t_min < sphereT0 s ray → sphereT0 s ray < t_max →
      s.hit_test ray t_min t_max = some (sphereHitAt s ray (sphereT0 s ray))) ∧
    (0 < sphereDisc s ray → ¬(t_min < sphereT0 s ray ∧ sphereT0 s ray < t_max) →
      t_min < sphereT1 s ray → sphereT1 s ray < t_max →
      s.hit_test ray t_min t_max = some (sphereHitAt s ray (sphereT1 s ray))) ∧
    (0 < sphereDisc s ray → ¬(t_min < sphereT0 s ray ∧ sphereT0 s ray < t_max) →
      ¬(t_min < sphereT1 s ray ∧ sphereT1 s ray < t_max) →
      s.hit_test ray t_min t_max = none) ∧
    sphereT0 s ray ≤ sphereT1 s ray ∧
    (sphereA ray ≠ 0 → 0 ≤ sphereDisc s ray →
      sphereA ray * sphereT0 s ray ^ 2 + 2 * sphereB s ray * sphereT0 s ray + sphereC s ray = 0 ∧
      sphereA ray * sphereT1 s ray ^ 2 + 2 * sphereB s ray * sphereT1 s ray + sphereC s ray = 0) ∧
    (∀ h : Hit, s.hit_test ray t_min t_max = some h →
      h.normal = (h.position - s.center).div_scalar s.radius ∧
      h.position = ray.point_at_parameter h.t) := by
  refine ⟨?_, ?_, ?_, ?_, sphereT0_le_sphereT1 s ray, ?_, ?_⟩
  · intro hd
    unfold Sphere.hit_test
    rw [if_neg (not_lt.mpr hd)]
  · intro hd h1 h2
    unfold Sphere.hit_test
    rw [if_pos hd, if_pos ⟨h2, h1⟩]
  · intro hd h0 h1 h2
    unfold Sphere.hit_test
    rw [if_pos hd, if_neg (fun hc => h0 ⟨hc.2, hc.1⟩), if_pos ⟨h2, h1⟩]
  · intro hd h0 h1
    unfold Sphere.hit_test
    rw [if_pos hd, if_neg (fun hc => h0 ⟨hc.2, hc.1⟩), if_neg (fun hc => h1 ⟨hc.2, hc.1⟩)]
  · intro ha hd
    have hd' : (0:ℝ) ≤ sphereB s ray * sphereB s ray - sphereA ray * sphereC s ray := hd
    have hs : Real.sqrt (sphereB s ray * sphereB s ray - sphereA ray * sphereC s ray) ^ 2 =
        sphereB s ray * sphereB s ray - sphereA ray * sphereC s ray := Real.sq_sqrt hd'
    constructor
    · unfold sphereT0
      field_simp
      nlinarith [hs]
    · unfold sphereT1
      field_simp
      nlinarith [hs]
  · intro h he
    obtain ⟨_, _, _, h4⟩ := sphere_hit_some s ray t_min t_max h he
    constructor
    · rw [h4]; rfl
    · rw [h4]; rfl

/-- Claim C2 is false at the tangent case: for the unit sphere at the origin
and the ray from `(0,1,2)` toward `(0,0,-1)` the discriminant is `0`, so a
real (repeated) root exists, the claim's smaller-root formula gives `t0 = 2`
strictly inside `(0.001, 1000)`, yet `hit_test` reports no hit, because the
code requires `discriminant > 0` strictly. -/
theorem c2_sphere_hit_counterexample :
    sphereDisc ⟨⟨0, 0, 0⟩, 1, Material.Diffuse ⟨1, 1, 1⟩⟩ ⟨⟨0, 1, 2⟩, ⟨0, 0, -1⟩⟩ = 0 ∧
    sphereA ⟨⟨0, 1, 2⟩, ⟨0, 0, -1⟩⟩ *
        sphereT0 ⟨⟨0, 0, 0⟩, 1, Material.Diffuse ⟨1, 1, 1⟩⟩ ⟨⟨0, 1, 2⟩, ⟨0, 0, -1⟩⟩ ^ 2 +
        2 * sphereB ⟨⟨0, 0, 0⟩, 1, Material.Diffuse ⟨1, 1, 1⟩⟩ ⟨⟨0, 1, 2⟩, ⟨0, 0, -1⟩⟩ *
          sphereT0 ⟨⟨0, 0, 0⟩, 1, Material.Diffuse ⟨1, 1, 1⟩⟩ ⟨⟨0, 1, 2⟩, ⟨0, 0, -1⟩⟩ +
        sphereC ⟨⟨0, 0, 0⟩, 1, Material.Diffuse ⟨1, 1, 1⟩⟩ ⟨⟨0, 1, 2⟩, ⟨0, 0, -1⟩⟩ = 0 ∧
    0.001 < sphereT0 ⟨⟨0, 0, 0⟩, 1, Material.Diffuse ⟨1, 1, 1⟩⟩ ⟨⟨0, 1, 2⟩, ⟨0, 0, -1⟩⟩ ∧
    sphereT0 ⟨⟨0, 0, 0⟩, 1, Material.Diffuse ⟨1, 1, 1⟩⟩ ⟨⟨0, 1, 2⟩, ⟨0, 0, -1⟩⟩ < 1000 ∧
    Sphere.hit_test ⟨⟨0, 0, 0⟩, 1, Material.Diffuse ⟨1, 1, 1⟩⟩ ⟨⟨0, 1, 2⟩, ⟨0, 0, -1⟩⟩
      0.001 1000 = none := by
  have hb : sphereB ⟨⟨0, 0, 0⟩, 1, Material.Diffuse ⟨1, 1, 1⟩⟩ ⟨⟨0, 1, 2⟩, ⟨0, 0, -1⟩⟩ = -2 := by
    norm_num [sphereB, Vec3.sub_def, Vec3.dot]
  have ha : sphereA ⟨⟨0, 1, 2⟩, ⟨0, 0, -1⟩⟩ = 1 := by
    norm_num [sphereA, Vec3.dot]
  have hc : sphereC ⟨⟨0, 0, 0⟩, 1, Material.Diffuse ⟨1, 1, 1⟩⟩ ⟨⟨0, 1, 2⟩, ⟨0, 0, -1⟩⟩ = 4 := by
    norm_num [sphereC, Vec3.sub_def, Vec3.dot]
  have harg : sphereB ⟨⟨0, 0, 0⟩, 1, Material.Diffuse ⟨1, 1, 1⟩⟩ ⟨⟨0, 1, 2⟩, ⟨0, 0, -1⟩⟩ *
      sphereB ⟨⟨0, 0, 0⟩, 1, Material.Diffuse ⟨1, 1, 1⟩⟩ ⟨⟨0, 1, 2⟩, ⟨0, 0, -1⟩⟩ -
      sphereA ⟨⟨0, 1, 2⟩, ⟨0, 0, -1⟩⟩ *
      sphereC ⟨⟨0, 0, 0⟩, 1, Material.Diffuse ⟨1, 1, 1⟩⟩ ⟨⟨0, 1, 2⟩, ⟨0, 0, -1⟩⟩ = 0 := by
    rw [hb, ha, hc]; norm_num
  have hd : sphereDisc ⟨⟨0, 0, 0⟩, 1, Material.Diffuse ⟨1, 1, 1⟩⟩ ⟨⟨0, 1, 2⟩, ⟨0, 0, -1⟩⟩ = 0 := by
    unfold sphereDisc
    exact harg
  have ht0 : sphereT0 ⟨⟨0, 0, 0⟩, 1, Material.Diffuse ⟨1, 1, 1⟩⟩ ⟨⟨0, 1, 2⟩, ⟨0, 0, -1⟩⟩ = 2 := by
    unfold sphereT0
    rw [harg, Real.sqrt_zero, hb, ha]
    norm_num
  refine ⟨hd, ?_, ?_, ?_, ?_⟩
  · rw [ht0, ha, hb, hc]; norm_num
  · rw [ht0]; norm_num
  · rw [ht0]; norm_num
  · unfold Sphere.hit_test
    rw [if_neg]
    rw [hd]
    norm_num

theorem pixel_channel_le (v : ℝ) (aa : ℕ) (h0 : 0 ≤ v) (h1 : v ≤ (aa : ℝ)) :
    ⌊Real.sqrt (v / (aa : ℝ)) * 255⌋₊ ≤ 255 := by
  have havg : v / (aa : ℝ) ≤ 1 := by
    rcases Nat.eq_zero_or_pos aa with h | h
    · subst h; simp
    · rw [div_le_one (by exact_mod_cast h)]
      exact h1
  have hs : Real.sqrt (v / (aa : ℝ)) ≤ 1 := Real.sqrt_le_one.mpr havg
  calc ⌊Real.sqrt (v / (aa : ℝ)) * 255⌋₊ ≤ ⌊(255 : ℝ)⌋₊ :=
        Nat.floor_mono (by nlinarith [Real.sqrt_nonneg (v / (aa : ℝ))])
    _ = 255 := by norm_num

theorem alpha_mask (old X : ℕ) (hX : X < 2 ^ 24) :
    ((old &&& 0xff000000) ||| X) &&& 0xff000000 = old &&& 0xff000000 := by
  apply Nat.eq_of_testBit_eq
  intro i
  simp only [Nat.testBit_land, Nat.testBit_lor]
  by_cases hi : i < 24
  · have hm : (0xff000000 : ℕ).testBit i = false := by
      have h255 : (0xff000000 : ℕ) = 255 <<< 24 := by norm_num [Nat.shiftLeft_eq]
      rw [h255, Nat.testBit_shiftLeft]
      have : ¬(24 ≤ i) := by omega
      simp [this]
    simp [hm]
  · have hXb : X.testBit i = false :=
      Nat.testBit_lt_two_pow
        (lt_of_lt_of_le hX (Nat.pow_le_pow_right (by norm_num) (by omega)))
    simp [hXb, Bool.and_assoc]

/-- Claim C7: every per-pixel write equals
`(old & 0xff000000) | (r << 16) | (g << 8) | b`; the old value is read for
nothing else (the written value is the top-byte mask or-ed with the value
that would be written over 0); and when each accumulated channel lies within
`[0, aa_samples]` the top (alpha) byte of the previous value is preserved. -/
theorem c7_alpha_preserved (c : Vec3) (aa_samples old : ℕ) :
    (writePixel c aa_samples old =
      (old &&& 0xff000000) ||| (pixelR c aa_samples <<< 16) |||
        (pixelG c aa_samples <<< 8) ||| pixelB c aa_samples) ∧
    (writePixel c aa_samples old = (old &&& 0xff000000) ||| writePixel c aa_samples 0) ∧
    (0 ≤ c.x → c.x ≤ (aa_samples : ℝ) → 0 ≤ c.y → c.y ≤ (aa_samples : ℝ) →
      0 ≤ c.z → c.z ≤ (aa_samples : ℝ) →
      writePixel c aa_samples old &&& 0xff000000 = old &&& 0xff000000) := by
  refine ⟨rfl, ?_, ?_⟩
  · unfold writePixel
    rw [Nat.zero_and, Nat.zero_or]
    apply Nat.eq_of_testBit_eq
    intro i
    simp [Nat.testBit_lor, Bool.or_assoc]
  · intro hx1 hx2 hy1 hy2 hz1 hz2
    have hr : pixelR c aa_samples ≤ 255 := pixel_channel_le c.x aa_samples hx1 hx2
    have hg : pixelG c aa_samples ≤ 255 := pixel_channel_le c.y aa_samples hy1 hy2
    have hb : pixelB c aa_samples ≤ 255 := pixel_channel_le c.z aa_samples hz1 hz2
    have hX : (pixelR c aa_samples <<< 16) ||| ((pixelG c aa_samples <<< 8) |||
        pixelB c aa_samples) < 2 ^ 24 := by
      apply Nat.or_lt_two_pow
      · rw [Nat.shiftLeft_eq]
        omega
      · apply Nat.or_lt_two_pow
        · rw [Nat.shiftLeft_eq]
          omega
        · omega
    calc writePixel c aa_samples old &&& 0xff000000
        = ((old &&& 0xff000000) |||
            ((pixelR c aa_samples <<< 16) ||| ((pixelG c aa_samples <<< 8) |||
              pixelB c aa_samples))) &&& 0xff000000 := by
          unfold writePixel
          rw [Nat.lor_assoc, Nat.lor_assoc]
      _ = old &&& 0xff000000 := alpha_mask old _ hX

theorem quarter_channel_127 : ⌊Real.sqrt ((1 / 4 : ℝ) / ((1 : ℕ) : ℝ)) * 255⌋₊ = 127 := by
  have h1 : ((1 / 4 : ℝ) / ((1 : ℕ) : ℝ)) = (1 / 2 : ℝ) ^ 2 := by norm_num
  rw [h1, Real.sqrt_sq (by norm_num)]
  rw [Nat.floor_eq_iff (by norm_num)]
  norm_num

/-- Claim C6: in the per-pixel pipeline with a single sample and zero jitter,
a pixel whose accumulated linear radiance is `(0.25, 0.25, 0.25)` is gamma-2
corrected (`sqrt` per channel, giving `0.5`) and quantized by multiplying by
255 and truncating, producing channel value 127 in each of the R, G and B
byte positions of the written pixel value. -/
theorem c6_gamma_quantize (world : World) (camera : Camera) (width height x y : ℕ)
    (rnd : ℕ → ℕ → Vec3) (old : ℕ)
    (hacc : accumulate world camera width height x y (fun _ => (0, 0)) rnd 1 =
      ⟨1 / 4, 1 / 4, 1 / 4⟩) :
    (pixelR ⟨1 / 4, 1 / 4, 1 / 4⟩ 1 = 127 ∧ pixelG ⟨1 / 4, 1 / 4, 1 / 4⟩ 1 = 127 ∧
      pixelB ⟨1 / 4, 1 / 4, 1 / 4⟩ 1 = 127) ∧
    renderPixel world camera width height x y (fun _ => (0, 0)) rnd 1 old =
      (old &&& 0xff000000) ||| (127 <<< 16) ||| (127 <<< 8) ||| 127 := by
  have hR : pixelR ⟨1 / 4, 1 / 4, 1 / 4⟩ 1 = 127 := by
    unfold pixelR apply_gamma_2_correction Vec3.div_scalar
    exact quarter_channel_127
  have hG : pixelG ⟨1 / 4, 1 / 4, 1 / 4⟩ 1 = 127 := by
    unfold pixelG apply_gamma_2_correction Vec3.div_scalar
    exact quarter_channel_127
  have hB : pixelB ⟨1 / 4, 1 / 4, 1 / 4⟩ 1 = 127 := by
    unfold pixelB apply_gamma_2_correction Vec3.div_scalar
    exact quarter_channel_127
  refine ⟨⟨hR, hG, hB⟩, ?_⟩
  unfold renderPixel
  rw [hacc]
  unfold writePixel
  rw [hR, hG, hB]

theorem color_miss (ray : Ray) (world : World) (bounces : ℕ) (rnd : ℕ → Vec3)
    (hh : world.hit_test ray 0.001 1000 = none) :
    color ray world bounces rnd =
      Vec3.lerp ⟨1, 1, 1⟩ ⟨0.5, 0.7, 1.0⟩ ((ray.direction.unit_vector.y + 1) * 0.5) := by
  rw [color, hh]

theorem color_hit (ray : Ray) (world : World) (b : ℕ) (rnd : ℕ → Vec3) (hit : Hit)
    (material : Material) (hh : world.hit_test ray 0.001 1000 = some (hit, material)) :
    color ray world (b + 1) rnd =
      match material.scatter ray hit (rnd 0) with
      | some sc => sc.attenuation * color sc.scattered_ray world b (fun n => rnd (n + 1))
      | none => Vec3.zero := by
  rw [color, hh]

theorem color_hit_zero (ray : Ray) (world : World) (rnd : ℕ → Vec3) (hit : Hit)
    (material : Material) (hh : world.hit_test ray 0.001 1000 = some (hit, material)) :
    color ray world 0 rnd = Vec3.zero := by
  rw [color, hh]

theorem unit_sphere_eval (m : Material) :
    Sphere.hit_test ⟨⟨0, 0, 0⟩, 1, m⟩ ⟨⟨0, 0, 2⟩, ⟨0, 0, -1⟩⟩ 0.001 1000 =
      some ⟨1, ⟨0, 0, 1⟩, ⟨0, 0, 1⟩⟩ := by
  have harg : sphereB ⟨⟨0, 0, 0⟩, 1, m⟩ ⟨⟨0, 0, 2⟩, ⟨0, 0, -1⟩⟩ *
      sphereB ⟨⟨0, 0, 0⟩, 1, m⟩ ⟨⟨0, 0, 2⟩, ⟨0, 0, -1⟩⟩ -
      sphereA ⟨⟨0, 0, 2⟩, ⟨0, 0, -1⟩⟩ * sphereC ⟨⟨0, 0, 0⟩, 1, m⟩ ⟨⟨0, 0, 2⟩, ⟨0, 0, -1⟩⟩ = 1 := by
    norm_num [sphereB, sphereA, sphereC, Vec3.sub_def, Vec3.dot]
  have hd : (0 : ℝ) < sphereDisc ⟨⟨0, 0, 0⟩, 1, m⟩ ⟨⟨0, 0, 2⟩, ⟨0, 0, -1⟩⟩ := by
    unfold sphereDisc
    rw [harg]
    norm_num
  have ht0 : sphereT0 ⟨⟨0, 0, 0⟩, 1, m⟩ ⟨⟨0, 0, 2⟩, ⟨0, 0, -1⟩⟩ = 1 := by
    unfold sphereT0
    rw [harg, Real.sqrt_one]
    norm_num [sphereB, sphereA, Vec3.sub_def, Vec3.dot]
  unfold Sphere.hit_test
  rw [if_pos hd, ht0, if_pos (by norm_num : (1 : ℝ) < 1000 ∧ (0.001 : ℝ) < 1)]
  congr 1
  unfold sphereHitAt Ray.point_at_parameter
  simp [Vec3.add_def, Vec3.sub_def, Vec3.multiply_scalar, Vec3.div_scalar, Hit.ext_iff,
    Vec3.ext_iff]
  norm_num

theorem unit_world_eval (m : Material) :
    World.hit_test ⟨[⟨⟨0, 0, 0⟩, 1, m⟩]⟩ ⟨⟨0, 0, 2⟩, ⟨0, 0, -1⟩⟩ 0.001 1000 =
      some (⟨1, ⟨0, 0, 1⟩, ⟨0, 0, 1⟩⟩, m) := by
  unfold World.hit_test
  simp only [hitLoop, unit_sphere_eval]

/-- Witness for the amended C2 theorem: the unit sphere at the origin and the
ray from `(0,0,2)` toward `(0,0,-1)` have positive discriminant and an
accepted smaller root, so `hit_test` returns that hit. -/
theorem c2_sphere_hit_witness :
    0 < sphereDisc ⟨⟨0, 0, 0⟩, 1, Material.Diffuse ⟨1, 1, 1⟩⟩ ⟨⟨0, 0, 2⟩, ⟨0, 0, -1⟩⟩ ∧
    0.001 < sphereT0 ⟨⟨0, 0, 0⟩, 1, Material.Diffuse ⟨1, 1, 1⟩⟩ ⟨⟨0, 0, 2⟩, ⟨0, 0, -1⟩⟩ ∧
    sphereT0 ⟨⟨0, 0, 0⟩, 1, Material.Diffuse ⟨1, 1, 1⟩⟩ ⟨⟨0, 0, 2⟩, ⟨0, 0, -1⟩⟩ < 1000 ∧
    Sphere.hit_test ⟨⟨0, 0, 0⟩, 1, Material.Diffuse ⟨1, 1, 1⟩⟩ ⟨⟨0, 0, 2⟩, ⟨0, 0, -1⟩⟩ 0.001 1000 =
      some (sphereHitAt ⟨⟨0, 0, 0⟩, 1, Material.Diffuse ⟨1, 1, 1⟩⟩ ⟨⟨0, 0, 2⟩, ⟨0, 0, -1⟩⟩
        (sphereT0 ⟨⟨0, 0, 0⟩, 1, Material.Diffuse ⟨1, 1, 1⟩⟩ ⟨⟨0, 0, 2⟩, ⟨0, 0, -1⟩⟩)) := by
  have harg : sphereB ⟨⟨0, 0, 0⟩, 1, Material.Diffuse ⟨1, 1, 1⟩⟩ ⟨⟨0, 0, 2⟩, ⟨0, 0, -1⟩⟩ *
      sphereB ⟨⟨0, 0, 0⟩, 1, Material.Diffuse ⟨1, 1, 1⟩⟩ ⟨⟨0, 0, 2⟩, ⟨0, 0, -1⟩⟩ -
      sphereA ⟨⟨0, 0, 2⟩, ⟨0, 0, -1⟩⟩ *
        sphereC ⟨⟨0, 0, 0⟩, 1, Material.Diffuse ⟨1, 1, 1⟩⟩ ⟨⟨0, 0, 2⟩, ⟨0, 0, -1⟩⟩ = 1 := by
    norm_num [sphereB, sphereA, sphereC, Vec3.sub_def, Vec3.dot]
  have hd : (0 : ℝ) <
      sphereDisc ⟨⟨0, 0, 0⟩, 1, Material.Diffuse ⟨1, 1, 1⟩⟩ ⟨⟨0, 0, 2⟩, ⟨0, 0, -1⟩⟩ := by
    unfold sphereDisc
    rw [harg]
    norm_num
  have ht0 : sphereT0 ⟨⟨0, 0, 0⟩, 1, Material.Diffuse ⟨1, 1, 1⟩⟩ ⟨⟨0, 0, 2⟩, ⟨0, 0, -1⟩⟩ = 1 := by
    unfold sphereT0
    rw [harg, Real.sqrt_one]
    norm_num [sphereB, sphereA, Vec3.sub_def, Vec3.dot]
  have h1 : (0.001 : ℝ) <
      sphereT0 ⟨⟨0, 0, 0⟩, 1, Material.Diffuse ⟨1, 1, 1⟩⟩ ⟨⟨0, 0, 2⟩, ⟨0, 0, -1⟩⟩ := by
    rw [ht0]; norm_num
  have h2 : sphereT0 ⟨⟨0, 0, 0⟩, 1, Material.Diffuse ⟨1, 1, 1⟩⟩ ⟨⟨0, 0, 2⟩, ⟨0, 0, -1⟩⟩ <
      1000 := by
    rw [ht0]; norm_num
  exact ⟨hd, h1, h2,
    (c2_sphere_hit_amended ⟨⟨0, 0, 0⟩, 1, Material.Diffuse ⟨1, 1, 1⟩⟩ ⟨⟨0, 0, 2⟩, ⟨0, 0, -1⟩⟩
      0.001 1000).2.1 hd h1 h2⟩

/-- Witness for C3's theorem: a one-sphere world whose query returns the
sphere's hit at `t = 1`. -/
theorem c3_world_nearest_hit_witness :
    ∃ l₁ s l₂, (World.mk [⟨⟨0, 0, 0⟩, 1, Material.Diffuse ⟨1, 1, 1⟩⟩]).spheres =
        l₁ ++ s :: l₂ ∧
      s.hit_test ⟨⟨0, 0, 2⟩, ⟨0, 0, -1⟩⟩ 0.001 1000 = some ⟨1, ⟨0, 0, 1⟩, ⟨0, 0, 1⟩⟩ ∧
      Material.Diffuse ⟨1, 1, 1⟩ = s.material ∧
      (∀ s' ∈ l₁, ∀ h', s'.hit_test ⟨⟨0, 0, 2⟩, ⟨0, 0, -1⟩⟩ 0.001 1000 = some h' →
        (⟨1, ⟨0, 0, 1⟩, ⟨0, 0, 1⟩⟩ : Hit).t < h'.t) ∧
      (∀ s' ∈ l₂, ∀ h', s'.hit_test ⟨⟨0, 0, 2⟩, ⟨0, 0, -1⟩⟩ 0.001 1000 = some h' →
        (⟨1, ⟨0, 0, 1⟩, ⟨0, 0, 1⟩⟩ : Hit).t ≤ h'.t) :=
  (c3_world_nearest_hit ⟨[⟨⟨0, 0, 0⟩, 1, Material.Diffuse ⟨1, 1, 1⟩⟩]⟩ ⟨⟨0, 0, 2⟩, ⟨0, 0, -1⟩⟩ 0.001 1000).2
    ⟨1, ⟨0, 0, 1⟩, ⟨0, 0, 1⟩⟩ (Material.Diffuse ⟨1, 1, 1⟩)
    (unit_world_eval (Material.Diffuse ⟨1, 1, 1⟩))

/-- Witness for C4's theorem: a head-on metal reflection with `fuzz = 0` has
positive dot product with the normal, so scatter succeeds. -/
theorem c4_scatter_cases_witness :
    0 < (reflect (Ray.mk ⟨0, 0, 2⟩ ⟨0, 0, -1⟩).direction.unit_vector
          (Hit.mk 1 ⟨0, 0, 1⟩ ⟨0, 0, 1⟩).normal +
        (Vec3.mk 0 0 0).multiply_scalar (clamped 0 0 1)).dot
        (Hit.mk 1 ⟨0, 0, 1⟩ ⟨0, 0, 1⟩).normal ∧
    (Material.Metal ⟨1, 1, 1⟩ 0).scatter ⟨⟨0, 0, 2⟩, ⟨0, 0, -1⟩⟩ ⟨1, ⟨0, 0, 1⟩, ⟨0, 0, 1⟩⟩
        ⟨0, 0, 0⟩ =
      some ⟨⟨1, 1, 1⟩, ⟨(Hit.mk 1 ⟨0, 0, 1⟩ ⟨0, 0, 1⟩).position,
        reflect (Ray.mk ⟨0, 0, 2⟩ ⟨0, 0, -1⟩).direction.unit_vector
            (Hit.mk 1 ⟨0, 0, 1⟩ ⟨0, 0, 1⟩).normal +
          (Vec3.mk 0 0 0).multiply_scalar (clamped 0 0 1)⟩⟩ := by
  have hunit : (Vec3.mk 0 0 (-1)).unit_vector = ⟨0, 0, -1⟩ := by
    unfold Vec3.unit_vector Vec3.length Vec3.div_scalar
    have h1 : ((0 : ℝ) * 0 + 0 * 0 + -1 * -1) = 1 := by norm_num
    rw [h1, Real.sqrt_one]
    norm_num
  have hdot : (reflect (Ray.mk ⟨0, 0, 2⟩ ⟨0, 0, -1⟩).direction.unit_vector
        (Hit.mk 1 ⟨0, 0, 1⟩ ⟨0, 0, 1⟩).normal +
      (Vec3.mk 0 0 0).multiply_scalar (clamped 0 0 1)).dot
      (Hit.mk 1 ⟨0, 0, 1⟩ ⟨0, 0, 1⟩).normal = 1 := by
    show (reflect (Vec3.mk 0 0 (-1)).unit_vector ⟨0, 0, 1⟩ +
      (Vec3.mk 0 0 0).multiply_scalar (clamped 0 0 1)).dot ⟨0, 0, 1⟩ = 1
    rw [hunit]
    norm_num [reflect, clamped, Vec3.dot, Vec3.sub_def, Vec3.add_def, Vec3.multiply_scalar]
  have hpos : 0 < (reflect (Ray.mk ⟨0, 0, 2⟩ ⟨0, 0, -1⟩).direction.unit_vector
        (Hit.mk 1 ⟨0, 0, 1⟩ ⟨0, 0, 1⟩).normal +
      (Vec3.mk 0 0 0).multiply_scalar (clamped 0 0 1)).dot
      (Hit.mk 1 ⟨0, 0, 1⟩ ⟨0, 0, 1⟩).normal := by
    rw [hdot]; norm_num
  exact ⟨hpos,
    (c4_scatter_cases ⟨⟨0, 0, 2⟩, ⟨0, 0, -1⟩⟩ ⟨1, ⟨0, 0, 1⟩, ⟨0, 0, 1⟩⟩ ⟨0, 0, 0⟩ ⟨1, 1, 1⟩ 0).2.2 hpos⟩

/-- Witness for C7's theorem at radiance `(0,0,0)`, one sample, old pixel
value 7. -/
theorem c7_alpha_preserved_witness :
    (0 : ℝ) ≤ (Vec3.mk 0 0 0).x ∧
    writePixel ⟨0, 0, 0⟩ 1 7 &&& 0xff000000 = 7 &&& 0xff000000 := by
  refine ⟨le_refl 0, ?_⟩
  exact (c7_alpha_preserved ⟨0, 0, 0⟩ 1 7).2.2 (le_refl 0) (by norm_num) (le_refl 0) (by norm_num)
    (le_refl 0) (by norm_num)

/-- Witness for C8's theorem on a 2x2 bitmap at coordinate `(1, 0)`. -/
theorem c8_iter_mut_coverage_witness :
    (1 : ℕ) < 2 ∧ (0 : ℕ) < 2 ∧
    ((Bitmap.iterMutTriples 2 2).map (fun t => (t.1, t.2.1))).count (1, 0) = 1 :=
  ⟨by decide, by decide, (c8_iter_mut_coverage 2 2).2.2.2 1 0 (by decide) (by decide)⟩

/-- Witness for C9's theorem on a 2x2 bitmap at coordinate `(1, 0)`. -/
theorem c9_get_mut_bounds_witness :
    (1 : ℕ) < 2 ∧ (0 : ℕ) < 2 ∧
    ∃ i, Bitmap.get_mut 2 2 1 0 = some i ∧ i < 2 * 2 :=
  ⟨by decide, by decide, (c9_get_mut_bounds 2 2 1 0).2 (by decide) (by decide)⟩

/-- Witness for C10's theorem: a sphere 2000 units down the ray, with roots
1999 and 2001, leaves the background gradient. -/
theorem c10_far_clip_background_witness :
    (0 : ℕ) < 1 ∧
    color ⟨⟨0, 0, 0⟩, ⟨0, 0, -1⟩⟩ ⟨[⟨⟨0, 0, -2000⟩, 1, Material.Diffuse ⟨1, 1, 1⟩⟩]⟩ 1
        (fun _ => Vec3.zero) =
      Vec3.lerp ⟨1, 1, 1⟩ ⟨0.5, 0.7, 1.0⟩
        (((Ray.mk ⟨0, 0, 0⟩ ⟨0, 0, -1⟩).direction.unit_vector.y + 1) * 0.5) := by
  have harg : sphereB ⟨⟨0, 0, -2000⟩, 1, Material.Diffuse ⟨1, 1, 1⟩⟩ ⟨⟨0, 0, 0⟩, ⟨0, 0, -1⟩⟩ *
      sphereB ⟨⟨0, 0, -2000⟩, 1, Material.Diffuse ⟨1, 1, 1⟩⟩ ⟨⟨0, 0, 0⟩, ⟨0, 0, -1⟩⟩ -
      sphereA ⟨⟨0, 0, 0⟩, ⟨0, 0, -1⟩⟩ *
        sphereC ⟨⟨0, 0, -2000⟩, 1, Material.Diffuse ⟨1, 1, 1⟩⟩ ⟨⟨0, 0, 0⟩, ⟨0, 0, -1⟩⟩ = 1 := by
    norm_num [sphereB, sphereA, sphereC, Vec3.sub_def, Vec3.dot]
  have ht0 : sphereT0 ⟨⟨0, 0, -2000⟩, 1, Material.Diffuse ⟨1, 1, 1⟩⟩ ⟨⟨0, 0, 0⟩, ⟨0, 0, -1⟩⟩ =
      1999 := by
    unfold sphereT0
    rw [harg, Real.sqrt_one]
    norm_num [sphereB, sphereA, Vec3.sub_def, Vec3.dot]
  have ht1 : sphereT1 ⟨⟨0, 0, -2000⟩, 1, Material.Diffuse ⟨1, 1, 1⟩⟩ ⟨⟨0, 0, 0⟩, ⟨0, 0, -1⟩⟩ =
      2001 := by
    unfold sphereT1
    rw [harg, Real.sqrt_one]
    norm_num [sphereB, sphereA, Vec3.sub_def, Vec3.dot]
  refine ⟨by norm_num, c10_far_clip_background _ _ 1 _ (by norm_num) ?_⟩
  intro s hmem hd
  rw [List.mem_singleton] at hmem
  subst hmem
  exact ⟨Or.inr (by rw [ht0]; norm_num), Or.inr (by rw [ht1]; norm_num)⟩

/-- Witness for C6's theorem: a concrete one-sphere scene, camera and random
stream whose single zero-jitter sample accumulates exactly
`(1/4, 1/4, 1/4)`. -/
theorem c6_gamma_quantize_witness :
    accumulate ⟨[⟨⟨0, 0, 0⟩, 1, Material.Diffuse ⟨1/2, 5/14, 1/4⟩⟩]⟩
        ⟨⟨0, 0, 2⟩, ⟨0, 0, 1⟩, ⟨0, 0, 0⟩, ⟨0, 0, 0⟩⟩ 1 1 0 0 (fun _ => (0, 0))
        (fun _ _ => ⟨0, 1/2, -1⟩) 1 = ⟨1/4, 1/4, 1/4⟩ ∧
    renderPixel ⟨[⟨⟨0, 0, 0⟩, 1, Material.Diffuse ⟨1/2, 5/14, 1/4⟩⟩]⟩
        ⟨⟨0, 0, 2⟩, ⟨0, 0, 1⟩, ⟨0, 0, 0⟩, ⟨0, 0, 0⟩⟩ 1 1 0 0 (fun _ => (0, 0))
        (fun _ _ => ⟨0, 1/2, -1⟩) 1 5 =
      (5 &&& 0xff000000) ||| (127 <<< 16) ||| (127 <<< 8) ||| 127 := by
  have hray0 : Camera.ray ⟨⟨0, 0, 2⟩, ⟨0, 0, 1⟩, ⟨0, 0, 0⟩, ⟨0, 0, 0⟩⟩ 0 0 =
      ⟨⟨0, 0, 2⟩, ⟨0, 0, -1⟩⟩ := by
    unfold Camera.ray
    norm_num [Vec3.add_def, Vec3.sub_def, Vec3.multiply_scalar, Ray.mk.injEq, Vec3.ext_iff]
  have hhit := unit_world_eval (Material.Diffuse ⟨1/2, 5/14, 1/4⟩)
  have hscat : (Material.Diffuse ⟨1/2, 5/14, 1/4⟩).scatter ⟨⟨0, 0, 2⟩, ⟨0, 0, -1⟩⟩
      ⟨1, ⟨0, 0, 1⟩, ⟨0, 0, 1⟩⟩ ⟨0, 1/2, -1⟩ =
      some ⟨⟨1/2, 5/14, 1/4⟩, ⟨⟨0, 0, 1⟩, ⟨0, 1/2, 0⟩⟩⟩ := by
    unfold Material.scatter
    norm_num [Vec3.add_def, Vec3.sub_def, MaterialScatter.mk.injEq, Ray.mk.injEq, Vec3.ext_iff]
  have hd2 : ¬((0:ℝ) < sphereDisc ⟨⟨0, 0, 0⟩, 1, Material.Diffuse ⟨1/2, 5/14, 1/4⟩⟩
      ⟨⟨0, 0, 1⟩, ⟨0, 1/2, 0⟩⟩) := by
    unfold sphereDisc sphereA sphereB sphereC
    norm_num [Vec3.sub_def, Vec3.dot]
  have hmiss : Sphere.hit_test ⟨⟨0, 0, 0⟩, 1, Material.Diffuse ⟨1/2, 5/14, 1/4⟩⟩
      ⟨⟨0, 0, 1⟩, ⟨0, 1/2, 0⟩⟩ 0.001 1000 = none := by
    unfold Sphere.hit_test
    rw [if_neg hd2]
  have hmissw : World.hit_test ⟨[⟨⟨0, 0, 0⟩, 1, Material.Diffuse ⟨1/2, 5/14, 1/4⟩⟩]⟩
      ⟨⟨0, 0, 1⟩, ⟨0, 1/2, 0⟩⟩ 0.001 1000 = none := by
    unfold World.hit_test
    simp only [hitLoop, hmiss]
  have hunit2 : (Vec3.mk 0 (1/2) 0).unit_vector = ⟨0, 1, 0⟩ := by
    unfold Vec3.unit_vector Vec3.length Vec3.div_scalar
    have h1 : ((0:ℝ) * 0 + 1/2 * (1/2) + 0 * 0) = (1/2) ^ 2 := by norm_num
    rw [h1, Real.sqrt_sq (by norm_num)]
    norm_num
  have hgrad : ∀ rnd' : ℕ → Vec3,
      color ⟨⟨0, 0, 1⟩, ⟨0, 1/2, 0⟩⟩ ⟨[⟨⟨0, 0, 0⟩, 1, Material.Diffuse ⟨1/2, 5/14, 1/4⟩⟩]⟩
        49 rnd' = ⟨1/2, 7/10, 1⟩ := by
    intro rnd'
    rw [color_miss _ _ _ _ hmissw]
    show Vec3.lerp ⟨1, 1, 1⟩ ⟨0.5, 0.7, 1.0⟩ (((Vec3.mk 0 (1/2) 0).unit_vector.y + 1) * 0.5) = _
    rw [hunit2]
    unfold Vec3.lerp
    norm_num [Vec3.multiply_scalar, Vec3.add_def, Vec3.ext_iff]
  have hfinal : color ⟨⟨0, 0, 2⟩, ⟨0, 0, -1⟩⟩
      ⟨[⟨⟨0, 0, 0⟩, 1, Material.Diffuse ⟨1/2, 5/14, 1/4⟩⟩]⟩ 50 (fun _ => ⟨0, 1/2, -1⟩) =
      ⟨1/4, 1/4, 1/4⟩ := by
    rw [show (50:ℕ) = 49 + 1 from rfl, color_hit _ _ _ _ _ _ hhit]
    simp only [hscat]
    rw [hgrad _]
    norm_num [Vec3.mul_def, Vec3.ext_iff]
  have hacc : accumulate ⟨[⟨⟨0, 0, 0⟩, 1, Material.Diffuse ⟨1/2, 5/14, 1/4⟩⟩]⟩
      ⟨⟨0, 0, 2⟩, ⟨0, 0, 1⟩, ⟨0, 0, 0⟩, ⟨0, 0, 0⟩⟩ 1 1 0 0 (fun _ => (0, 0))
      (fun _ _ => ⟨0, 1/2, -1⟩) 1 = ⟨1/4, 1/4, 1/4⟩ := by
    simp only [accumulate]
    norm_num
    rw [hray0, hfinal]
    norm_num [Vec3.zero, Vec3.add_def, Vec3.ext_iff]
  exact ⟨hacc, ((c6_gamma_quantize _ _ _ _ _ _ _ 5 hacc).2)⟩
